import Mathlib

/-!
Verification of the metadv resolution engine: connection normalization,
key/hash derivation, per-target grouping and the validator engine, embedded
shallowly from the Python sources (`metadv/generator.py`,
`metadv/generators/{stage,link,hub,sat}.py`,
`metadv/validations/column_no_connection.py`).
-/

namespace Metadv

/-- Python truthiness of an optional string (`None` and `""` are falsy). -/
def truthyStr : Option String → Bool
  | none => false
  | some s => decide (s ≠ "")

/-- A YAML value that is either a scalar string or a list of strings
(the oldest annotation generation accepts both for `entity_name` and
`attribute_of`). -/
inductive StrOrList where
  | str (s : String)
  | list (l : List String)
  deriving DecidableEq, Repr

/-- The `isinstance(x, str)` wrapping step: a scalar becomes a one-element list. -/
def StrOrList.toList : StrOrList → List String
  | .str s => [s]
  | .list l => l

/-- Python truthiness of an optional scalar-or-list value. -/
def truthySOL : Option StrOrList → Bool
  | none => false
  | some (.str s) => decide (s ≠ "")
  | some (.list l) => decide (l ≠ [])

/-- One entry of the unified `target` connection list: a Python dict whose
keys may each be absent (`dict.get` returns `None`). -/
structure RawConn where
  target_name : Option String := none
  entity_name : Option String := none
  entity_index : Option Int := none
  attribute_of : Option String := none
  target_attribute : Option String := none
  multiactive_key : Option Bool := none
  deriving DecidableEq, Repr

/-- The legacy `meta` block of a column annotation. -/
structure RawMeta where
  target : Option (List RawConn) := none
  entity_name : Option StrOrList := none
  entity_name_index : Option Int := none
  entity_relation : Option String := none
  attribute_of : Option StrOrList := none
  target_attribute : Option String := none
  multiactive_key : Option Bool := none
  deriving DecidableEq, Repr

/-- A raw source column as read from `metadv.yml`. -/
structure RawColumn where
  name : String
  target : Option (List RawConn) := none
  meta : RawMeta := {}
  deriving DecidableEq, Repr

/-- A raw source: a name and its ordered columns. -/
structure RawSource where
  name : String
  columns : List RawColumn
  deriving DecidableEq, Repr

/-- Synthesis of the unified connection list from the oldest annotation
generation (`MetaDVGenerator.read`, the `meta.entity_name` /
`meta.attribute_of` branch). -/
def metaOldTarget (m : RawMeta) : List RawConn :=
  let entityEntries :=
    match m.entity_name with
    | none => []
    | some en =>
      en.toList.map fun e =>
        if truthyStr m.entity_relation then
          { target_name := m.entity_relation, entity_name := some e,
            entity_index := m.entity_name_index }
        else
          { target_name := some e, entity_index := m.entity_name_index }
  let attrEntries :=
    match m.attribute_of with
    | none => []
    | some ao =>
      ao.toList.map fun a =>
        { attribute_of := some a,
          target_attribute := if truthyStr m.target_attribute then m.target_attribute else none,
          multiactive_key := if m.multiactive_key = some true then some true else none }
  entityEntries ++ attrEntries

/-- The connection normalizer (`MetaDVGenerator.read`): unified `target`
list first, then the legacy `meta.target` list, then the oldest separate
fields; a column with none of the three yields the empty list. -/
def normalizeColumn (c : RawColumn) : List RawConn :=
  match c.target with
  | some t => t
  | none =>
    match c.meta.target with
    | some t => t
    | none => metaOldTarget c.meta

/-- A column after normalization: name plus canonical connection list. -/
structure Column where
  name : String
  conns : List RawConn
  deriving DecidableEq, Repr

/-- A source after normalization. -/
structure Source where
  name : String
  columns : List Column
  deriving DecidableEq, Repr

/-- Normalize every column of a raw column list. -/
def canonColumns (cols : List RawColumn) : List Column :=
  cols.map fun c => ⟨c.name, normalizeColumn c⟩

/-- A target as declared in `metadv.yml` (`type` defaults to `entity`). -/
structure Target where
  name : String
  type : String := "entity"
  entities : List String := []
  deriving DecidableEq, Repr

/-- Lookup in an insertion-ordered dict modelled as an association list. -/
def alookup {α : Type} : List (String × α) → String → Option α
  | [], _ => none
  | (k, v) :: rest, k' => if k = k' then some v else alookup rest k'

/-- Python `k in d` for the association-list dict model. -/
def hasKey {α : Type} (m : List (String × α)) (k : String) : Bool :=
  m.any fun p => decide (p.1 = k)

/-- Python `d[k] = v`: update in place if present, else append. -/
def dinsert {α : Type} (m : List (String × α)) (k : String) (v : α) : List (String × α) :=
  if hasKey m k then m.map (fun p => if p.1 = k then (p.1, v) else p) else m ++ [(k, v)]

/-- The Python pattern `if k not in d: d[k] = []` followed by `d[k].append(v)`. -/
def dappend {α : Type} (m : List (String × List α)) (k : String) (v : α) :
    List (String × List α) :=
  if hasKey m k then m.map (fun p => if p.1 = k then (p.1, p.2 ++ [v]) else p)
  else m ++ [(k, [v])]

/-- The Python pattern `if k not in d: d[k] = []` alone. -/
def ensureKey (m : List (String × List String)) (k : String) : List (String × List String) :=
  if hasKey m k then m else m ++ [(k, [])]

/-- The Python pattern `if v not in d[k]: d[k].append(v)`. -/
def dappendNew (m : List (String × List String)) (k : String) (v : String) :
    List (String × List String) :=
  m.map fun p => if p.1 = k ∧ v ∉ p.2 then (p.1, p.2 ++ [v]) else p

/-- The dict comprehension `{t.name: t for t in targets}` (later duplicates
overwrite the value in place, first insertion position is kept). -/
def dictByName (ts : List Target) : List Target :=
  ts.foldl (fun acc t =>
    if acc.any fun u => decide (u.name = t.name) then
      acc.map fun u => if u.name = t.name then t else u
    else acc ++ [t]) []

/-- `targets_by_name.get(n)`. -/
def lookupTarget (ts : List Target) (n : String) : Option Target :=
  (dictByName ts).find? fun t => decide (t.name = n)

/-- `targets_by_name.get(n, \x7b\x7d).get('type', 'entity')`. -/
def targetType (ts : List Target) (n : String) : String :=
  match lookupTarget ts n with
  | some t => t.type
  | none => "entity"

/-- `targets_by_name.get(n, \x7b\x7d).get('entities', [])`. -/
def targetEntities (ts : List Target) (n : String) : List String :=
  match lookupTarget ts n with
  | some t => t.entities
  | none => []

/-- Accumulator state of `StageGenerator.render_sql`'s first loop. -/
structure StageState where
  derived : List (String × String) := []
  hashed : List (String × List String) := []
  relCols : List (String × List String) := []
  deriving DecidableEq, Repr

/-- Processing of one connection of one column in `StageGenerator.render_sql`
(lines 61-109 of `stage.py`). -/
def stageConn (ts : List Target) (colName : String) (st : StageState) (conn : RawConn) :
    StageState :=
  match conn.target_name with
  | none => st
  | some tn =>
    if tn = "" then st
    else
      let ttype := targetType ts tn
      if ttype = "entity" then
        { st with
          derived := dinsert st.derived (tn ++ "_id") colName,
          hashed := dappend st.hashed (tn ++ "_hk") colName }
      else if ttype = "relation" then
        let entities := targetEntities ts tn
        match conn.entity_name with
        | none => st
        | some en =>
          if en = "" ∨ en ∉ entities then st
          else
            let keyName :=
              match conn.entity_index with
              | some i =>
                if entities.count en > 1 then tn ++ "_" ++ en ++ "_" ++ toString (i + 1)
                else tn ++ "_" ++ en
              | none => tn ++ "_" ++ en
            { derived := dinsert st.derived (keyName ++ "_id") colName,
              hashed := dappend st.hashed (keyName ++ "_hk") colName,
              relCols := dappend st.relCols tn colName }
      else st

/-- The first pass of `StageGenerator.render_sql` over all columns. -/
def stagePass1 (ts : List Target) (cols : List Column) : StageState :=
  cols.foldl (fun st c => c.conns.foldl (stageConn ts c.name) st) {}

/-- The relation combined hash-key pass (`stage.py` lines 111-119). -/
def relationPass (st : StageState) : List (String × List String) :=
  st.relCols.foldl (fun h p =>
    p.2.foldl (fun h c => dappendNew h (p.1 ++ "_hk") c) (ensureKey h (p.1 ++ "_hk"))) st.hashed

/-- `derived_columns` of the per-source stage artifact. -/
def stageDerivedColumns (ts : List Target) (cols : List Column) : List (String × String) :=
  (stagePass1 ts cols).derived

/-- `hashed_columns` of the per-source stage artifact. -/
def stageHashedColumns (ts : List Target) (cols : List Column) : List (String × List String) :=
  relationPass (stagePass1 ts cols)

/-- `hashdiff_columns` of the per-source stage artifact (`stage.py` 121-131). -/
def stageHashdiffColumns (cols : List Column) : List (String × List String) :=
  cols.foldl (fun h c =>
    c.conns.foldl (fun h conn =>
      match conn.attribute_of with
      | some a => if a = "" then h else dappend h a c.name
      | none => h) h) []

/-- Foreign-key naming of `LinkGenerator.render_sql` (`link.py` lines 97-107):
the self-link flag is global (any repeated entity) and every slot then gets a
sequence suffix. -/
def linkFkColumns (linkName : String) (entities : List String) : List String :=
  let isSelfLink := entities.length ≠ entities.dedup.length
  entities.enum.map fun p =>
    if isSelfLink then
      linkName ++ "_" ++ p.2 ++ "_" ++ toString ((entities.take (p.1 + 1)).count p.2) ++ "_hk"
    else
      linkName ++ "_" ++ p.2 ++ "_hk"

/-- Source refs that `HubGenerator.generate` collects for one entity target:
one `(source, column)` pair per column having a connection whose
`target_name` equals the target (at most once per column, the loop breaks). -/
def hubSourceRefs (sources : List Source) (tname : String) : List (String × String) :=
  sources.foldl (fun acc s =>
    s.columns.foldl (fun acc c =>
      if c.conns.any fun conn => decide (conn.target_name = some tname) then
        acc ++ [(s.name, c.name)]
      else acc) acc) []

/-- Names of the entity targets for which `HubGenerator.generate` emits a hub
artifact (entity-type targets with at least one source ref). -/
def generatedHubs (ts : List Target) (sources : List Source) : List String :=
  (dictByName ts).foldl (fun acc t =>
    if t.type = "entity" ∧ hubSourceRefs sources t.name ≠ [] then acc ++ [t.name] else acc) []

/-- An attribute column as stored by `SatGenerator.generate`: the column name
together with the connection's attribute metadata. -/
structure AttrCol where
  column : String
  target_attribute : Option String
  multiactive_key : Option Bool
  deriving DecidableEq, Repr

/-- Accumulator state of `SatGenerator.generate`'s grouping loop. -/
structure SatState where
  targetColumns : List (String × List AttrCol) := []
  entityColumns : List (String × List String) := []
  deriving DecidableEq, Repr

/-- The role key under which the entity branch of `SatGenerator.generate`
files a connection: `entity = entity_name if entity_name else target_name`,
kept only when `entity` is itself truthy. -/
def roleKey (conn : RawConn) : Option String :=
  let e := if truthyStr conn.entity_name then conn.entity_name else conn.target_name
  match e with
  | some s => if s = "" then none else some s
  | none => none

/-- The entity/relation-key branch of `SatGenerator.generate`'s grouping:
the column is filed under its role key when one exists. -/
def satConnEntity (colName : String) (st : SatState) (conn : RawConn) : SatState :=
  match roleKey conn with
  | some e => { st with entityColumns := dappend st.entityColumns e colName }
  | none => st

/-- Processing of one connection in `SatGenerator.generate` (lines 30-56):
a truthy `attribute_of` files the column under the attribute target,
otherwise the entity branch applies. -/
def satConn (colName : String) (st : SatState) (conn : RawConn) : SatState :=
  match conn.attribute_of with
  | some a =>
    if a = "" then satConnEntity colName st conn
    else
      { st with targetColumns :=
          dappend st.targetColumns a ⟨colName, conn.target_attribute, conn.multiactive_key⟩ }
  | none => satConnEntity colName st conn

/-- The full grouping pass of `SatGenerator.generate` over a source's columns. -/
def satStateFor (cols : List Column) : SatState :=
  cols.foldl (fun st c => c.conns.foldl (satConn c.name) st) {}

/-- One emitted satellite artifact for a (source, target) pair. -/
structure SatArtifact where
  target : String
  source : String
  isMultiactive : Bool
  payload : List String
  maKeys : List String
  drivingKey : Option String
  deriving DecidableEq, Repr

/-- Assembly of one satellite artifact (`SatGenerator.generate` lines 59-84
and `render_sql` lines 104-113): multiactive-key columns, payload exclusion,
filename kind and driving key resolution. -/
def mkSatArtifact (sourceName : String) (st : SatState) (p : String × List AttrCol) :
    SatArtifact :=
  let maCols := (p.2.filter fun a => decide (a.multiactive_key = some true)).map (·.column)
  let payload :=
    if maCols.length > 0 then
      (p.2.filter fun a => decide (a.column ∉ maCols)).map (·.column)
    else p.2.map (·.column)
  { target := p.1, source := sourceName,
    isMultiactive := decide (maCols.length > 0),
    payload := payload, maKeys := maCols,
    drivingKey := (alookup st.entityColumns p.1).bind List.head? }

/-- All satellite artifacts emitted for one source (one per `target_columns`
dict entry, i.e. per attribute target of the source). -/
def satArtifacts (sourceName : String) (cols : List Column) : List SatArtifact :=
  (satStateFor cols).targetColumns.map (mkSatArtifact sourceName (satStateFor cols))

/-- A validator message (`severity`/`code`/`message`; the `ValidationMessage`
class lives in the absent `validations/base.py`, its shape is taken from its
uses in `generator.py` and the spec). -/
structure ValidationMessage where
  type : String
  code : String
  message : String
  deriving DecidableEq, Repr

/-- The connection check of `ColumnNoConnectionValidator.validate`
(`column_no_connection.py` lines 17-36), which re-derives connectedness
from the raw column with Python truthiness. -/
def colHasConnection (c : RawColumn) : Bool :=
  match c.target with
  | some t => decide (t ≠ [])
  | none =>
    match c.meta.target with
    | some t => decide (t ≠ [])
    | none => truthySOL c.meta.entity_name || truthySOL c.meta.attribute_of

/-- The warning emitted for an unconnected column (the quote characters the
Python f-string places around the column reference are elided). -/
def noConnectionMessage (sourceName colName : String) : ValidationMessage :=
  ⟨"warning", "column_no_connection",
    "Column " ++ sourceName ++ "." ++ colName ++ " has no connection to any target"⟩

/-- `ColumnNoConnectionValidator.validate` over all raw sources. -/
def columnNoConnectionWarnings (sources : List RawSource) : List ValidationMessage :=
  sources.foldl (fun msgs s =>
    s.columns.foldl (fun msgs c =>
      if colHasConnection c then msgs else msgs ++ [noConnectionMessage s.name c.name]) msgs) []

/-- The warning for an entity target without any connected source column. -/
def entityNoSourceMessage (tname : String) : ValidationMessage :=
  ⟨"warning", "entity_no_source", "Entity " ++ tname ++ " has no source column connected to it"⟩

/-- Modelled from the spec: the EntityNoSource validator, whose
implementation file is absent from the repository source (only the
auto-discovery engine and a test expecting warning code `entity_no_source`
exist). Per the spec it warns, per entity-type target, when no column in any
source resolves an EntityKey to it, i.e. when no connection's `target_name`
names the target. -/
def entityNoSourceWarnings (ts : List Target) (sources : List Source) : List ValidationMessage :=
  (dictByName ts).foldl (fun msgs t =>
    if t.type = "entity" ∧
        ¬ sources.any (fun s => s.columns.any fun c =>
            c.conns.any fun conn => decide (conn.target_name = some t.name)) then
      msgs ++ [entityNoSourceMessage t.name]
    else msgs) []

/-- The validator engine (`run_validations`): every registered rule runs and
its messages are appended; the registry is abstracted as the rule list. -/
def runValidations {Ctx : Type} (rules : List (Ctx → List ValidationMessage)) (ctx : Ctx) :
    List ValidationMessage :=
  rules.foldl (fun msgs r => msgs ++ r ctx) []

/-- The error-severity messages (`MetaDVGenerator.validate`). -/
def validationErrors (msgs : List ValidationMessage) : List ValidationMessage :=
  msgs.filter fun m => decide (m.type = "error")

/-- The error texts surfaced by `MetaDVGenerator.generate`. -/
def surfacedErrorMessages (msgs : List ValidationMessage) : List String :=
  (validationErrors msgs).map (·.message)

/-- The generation gate of `MetaDVGenerator.generate` (lines 396-399):
blocked exactly when an error-severity message exists, with every error
message joined into the surfaced text. -/
def generateOutcome (msgs : List ValidationMessage) : Except String Unit :=
  if validationErrors msgs = [] then .ok ()
  else .error ("Validation errors: " ++ String.intercalate "; " (surfacedErrorMessages msgs))

/-- A semantic intent expressible in the oldest annotation generation:
entity names sharing one optional relation and index, and attribute targets
sharing one optional target attribute and multiactive flag. -/
structure OldIntent where
  entityNames : List String
  entityRelation : Option String
  entityIndex : Option Int
  attributeOf : List String
  targetAttribute : Option String
  multiactiveKey : Bool
  deriving DecidableEq, Repr

/-- The canonical unified-form connection list expressing an `OldIntent`,
written from the spec's canonical connection shape: one
`\x7btarget_name, entity_name?, entity_index?\x7d` entry per entity name
(with the relation as `target_name` when present) followed by one
`\x7battribute_of, target_attribute?, multiactive_key?\x7d` entry per
attribute target. -/
def canonicalConnsSpec (i : OldIntent) : List RawConn :=
  (i.entityNames.map fun en =>
    match i.entityRelation with
    | some r => { target_name := some r, entity_name := some en, entity_index := i.entityIndex }
    | none => { target_name := some en, entity_index := i.entityIndex }) ++
  i.attributeOf.map fun a =>
    { attribute_of := some a, target_attribute := i.targetAttribute,
      multiactive_key := if i.multiactiveKey then some true else none }

/-- A column declaring an `OldIntent` in the oldest generation with
list-valued `entity_name` and `attribute_of`. -/
def encodeOldest (n : String) (i : OldIntent) : RawColumn :=
  ⟨n, none,
    { entity_name := some (.list i.entityNames),
      entity_name_index := i.entityIndex,
      entity_relation := i.entityRelation,
      attribute_of := some (.list i.attributeOf),
      target_attribute := i.targetAttribute,
      multiactive_key := some i.multiactiveKey }⟩

/-- A column declaring an `OldIntent` with singleton entity/attribute names
in the oldest generation's scalar form. -/
def encodeOldestScalar (n : String) (s a : String) (i : OldIntent) : RawColumn :=
  ⟨n, none,
    { entity_name := some (.str s),
      entity_name_index := i.entityIndex,
      entity_relation := i.entityRelation,
      attribute_of := some (.str a),
      target_attribute := i.targetAttribute,
      multiactive_key := some i.multiactiveKey }⟩

/-- The driving key as claim C9 states it: the first column (first-encounter
order) carrying an `EntityKey` connection (an entry with `target_name` and no
`attribute_of`) whose `target_name` is the satellite's target. -/
def firstEntityKeyColumnClaim (cols : List Column) (t : String) : Option String :=
  ((cols.filter fun c => c.conns.any fun conn =>
      decide (conn.attribute_of = none ∧ conn.target_name = some t)).map (·.name)).head?

/-- The key under which `SatGenerator.generate`'s entity branch files a
connection: the role key for non-attribute connections, `none` for truthy
attribute connections. -/
def entityContribution (conn : RawConn) : Option String :=
  if truthyStr conn.attribute_of then none else roleKey conn

/-- The columns filed under key `t` by the entity branch, in first-encounter
order over the source's (column, connection) sequence. -/
def collectEntity (cols : List Column) (t : String) : List String :=
  cols.foldl (fun acc c =>
    acc ++ c.conns.filterMap fun conn =>
      if entityContribution conn = some t then some c.name else none) []

/-- The driving key the sat generator actually resolves: the head of the
columns filed under the satellite's target by the entity branch. -/
def drivingKeySpec (cols : List Column) (t : String) : Option String :=
  (collectEntity cols t).head?

/-- Columns of the C9 counterexample: `k` fills role `e` of relation `r`
(`target_name = r`, `entity_name = e`) and `a` is an attribute of `r`. -/
def c9Columns : List Column :=
  [⟨"k", [{ target_name := some "r", entity_name := some "e" }]⟩,
   ⟨"a", [{ attribute_of := some "r" }]⟩]

/-- Columns of the C3 counterexample: one column connected twice to the same
entity target. -/
def c3Columns : List Column :=
  [⟨"c", [{ target_name := some "t" }, { target_name := some "t" }]⟩]

/-- Target list of the C3 counterexample. -/
def c3Targets : List Target := [⟨"t", "entity", []⟩]

/-- The key sequence of an association-list dict. -/
def keysOf {α : Type} (m : List (String × α)) : List String := m.map Prod.fst

/-- Combination of an optional existing dict entry with newly appended
elements: stays absent only when nothing was and is appended. -/
def mergeOpt (o : Option (List String)) (L : List String) : Option (List String) :=
  match o, L with
  | none, [] => none
  | o, L => some (o.getD [] ++ L)

/-- Targets of the C2 scenario: the relation `rel` with entities `[A, A, B]`. -/
def c2Targets : List Target := [⟨"rel", "relation", ["A", "A", "B"]⟩]

/-- Columns of the C2 scenario: a column with `entity_index = 0` for `A`, a
column with `entity_index = 1` for `A`, and a column for `B`. -/
def c2Columns (n1 n2 n3 : String) : List Column :=
  [⟨n1, [{ target_name := some "rel", entity_name := some "A", entity_index := some 0 }]⟩,
   ⟨n2, [{ target_name := some "rel", entity_name := some "A", entity_index := some 1 }]⟩,
   ⟨n3, [{ target_name := some "rel", entity_name := some "B" }]⟩]

/-- Columns of the C8 witness source: a key column, a multiactive-key-flagged
attribute and an ordinary attribute, all for target `t`. -/
def c8Cols : List Column :=
  [⟨"id", [{ target_name := some "t" }]⟩,
   ⟨"k", [{ attribute_of := some "t", multiactive_key := some true }]⟩,
   ⟨"v", [{ attribute_of := some "t" }]⟩]

/-- Targets of the C1 failing input: one relation with a repeated and a
non-repeated entity. -/
def c1Targets : List Target := [⟨"rel", "relation", ["a", "a", "b"]⟩]

/-- Columns of the C1 failing input: the two `a` slots and the `b` slot. -/
def c1Columns : List Column :=
  [⟨"ca1", [{ target_name := some "rel", entity_name := some "a", entity_index := some 0 }]⟩,
   ⟨"ca2", [{ target_name := some "rel", entity_name := some "a", entity_index := some 1 }]⟩,
   ⟨"cb", [{ target_name := some "rel", entity_name := some "b" }]⟩]

theorem foldl_invariant_mem {α β : Type _} (P : α → Prop) (f : α → β → α) :
    ∀ l : List β, (∀ st x, x ∈ l → P st → P (f st x)) → ∀ st, P st → P (l.foldl f st) := by
  intro l
  induction l with
  | nil => intro _ st hst; exact hst
  | cons x xs ih =>
    intro h st hst
    exact ih (fun st y hy hP => h st y (List.mem_cons_of_mem _ hy) hP) (f st x)
      (h st x (List.mem_cons_self _ _) hst)

theorem foldl_append_acc {β γ : Type _} (g : β → List γ) :
    ∀ (l : List β) (a : List γ),
      l.foldl (fun acc x => acc ++ g x) a = a ++ l.foldl (fun acc x => acc ++ g x) [] := by
  intro l
  induction l with
  | nil => intro a; simp
  | cons x xs ih =>
    intro a
    rw [List.foldl_cons, List.foldl_cons, ih (a ++ g x), ih ([] ++ g x)]
    simp

theorem alookup_append_of_some {α : Type} {m : List (String × α)} {k : String} {w : α}
    (m' : List (String × α)) (h : alookup m k = some w) : alookup (m ++ m') k = some w := by
  induction m with
  | nil => simp [alookup] at h
  | cons p rest ih =>
    obtain ⟨k0, v0⟩ := p
    by_cases h0 : k0 = k
    · simpa [alookup, h0] using h
    · simp only [alookup, if_neg h0] at h
      simpa [alookup, h0] using ih h

theorem alookup_append_of_none {α : Type} {m : List (String × α)} {k : String}
    (m' : List (String × α)) (h : alookup m k = none) : alookup (m ++ m') k = alookup m' k := by
  induction m with
  | nil => simp
  | cons p rest ih =>
    obtain ⟨k0, v0⟩ := p
    by_cases h0 : k0 = k
    · simp [alookup, h0] at h
    · simp only [alookup, if_neg h0] at h
      simpa [alookup, h0] using ih h

theorem hasKey_iff {α : Type} (m : List (String × α)) (k : String) :
    hasKey m k = true ↔ k ∈ keysOf m := by
  simp [hasKey, keysOf, List.any_eq_true, List.mem_map]

theorem alookup_eq_none_of_hasKey_false {α : Type} (m : List (String × α)) (k : String)
    (h : hasKey m k = false) : alookup m k = none := by
  induction m with
  | nil => rfl
  | cons p rest ih =>
    obtain ⟨k0, v0⟩ := p
    simp only [hasKey, List.any_cons, Bool.or_eq_false_iff] at h
    have h0 : k0 ≠ k := by simpa using h.1
    simp only [alookup, if_neg h0]
    exact ih h.2

theorem alookup_isSome_of_hasKey {α : Type} (m : List (String × α)) (k : String)
    (h : hasKey m k = true) : ∃ w, alookup m k = some w := by
  induction m with
  | nil => simp [hasKey] at h
  | cons p rest ih =>
    obtain ⟨k0, v0⟩ := p
    by_cases h0 : k0 = k
    · exact ⟨v0, by simp [alookup, h0]⟩
    · simp only [hasKey, List.any_cons, Bool.or_eq_true_iff] at h
      rcases h with h | h
      · exact absurd (by simpa using h) h0
      · obtain ⟨w, hw⟩ := ih h
        exact ⟨w, by simpa [alookup, h0] using hw⟩

theorem alookup_map_update {α : Type} (m : List (String × α)) (k : String) (f : α → α)
    (t : String) :
    alookup (m.map fun p => if p.1 = k then (p.1, f p.2) else p) t =
      if t = k then (alookup m t).map f else alookup m t := by
  induction m with
  | nil => by_cases ht : t = k <;> simp [alookup, ht]
  | cons p rest ih =>
    obtain ⟨k0, v0⟩ := p
    simp only [List.map_cons]
    by_cases h0 : k0 = k
    · rw [if_pos h0]
      simp only [alookup]
      by_cases ht : k0 = t
      · rw [if_pos ht, if_pos ht, if_pos (ht.symm.trans h0)]
        simp
      · rw [if_neg ht, if_neg ht, ih]
    · rw [if_neg h0]
      simp only [alookup]
      by_cases ht : k0 = t
      · rw [if_pos ht, if_pos ht, if_neg (fun hh => h0 (ht.trans hh))]
      · rw [if_neg ht, if_neg ht, ih]

theorem alookup_dappend {α : Type} (m : List (String × List α)) (k : String) (v : α)
    (t : String) :
    alookup (dappend m k v) t =
      if t = k then some ((alookup m k).getD [] ++ [v]) else alookup m t := by
  unfold dappend
  by_cases h : hasKey m k = true
  · rw [if_pos h]
    by_cases ht : t = k
    · subst ht
      obtain ⟨w, hw⟩ := alookup_isSome_of_hasKey m t h
      rw [if_pos rfl, hw]
      have hmu := alookup_map_update m t (fun x => x ++ [v]) t
      rw [if_pos rfl, hw] at hmu
      exact hmu.trans (by simp)
    · rw [if_neg ht]
      have hmu := alookup_map_update m k (fun x => x ++ [v]) t
      rw [if_neg ht] at hmu
      exact hmu
  · have h' : hasKey m k = false := by simpa using h
    rw [if_neg h]
    by_cases ht : t = k
    · subst ht
      rw [if_pos rfl, alookup_eq_none_of_hasKey_false m t h',
        alookup_append_of_none _ (alookup_eq_none_of_hasKey_false m t h')]
      simp [alookup]
    · rw [if_neg ht]
      cases halt : alookup m t with
      | some w => exact alookup_append_of_some _ halt
      | none =>
        have hkt : ¬ k = t := fun hh => ht hh.symm
        rw [alookup_append_of_none _ halt]
        simp [alookup, hkt]

theorem alookup_dappendNew (m : List (String × List String)) (k v t : String)
    (l : List String) (h : alookup (dappendNew m k v) t = some l) :
    ∃ w, alookup m t = some w ∧ (l = w ∨ (l = w ++ [v] ∧ v ∉ w)) := by
  induction m with
  | nil => simp [dappendNew, alookup] at h
  | cons p rest ih =>
    obtain ⟨k0, w0⟩ := p
    simp only [dappendNew, List.map_cons] at h
    by_cases hcond : k0 = k ∧ v ∉ w0
    · rw [if_pos hcond] at h
      by_cases ht : k0 = t
      · simp only [alookup, if_pos ht] at h
        refine ⟨w0, by simp [alookup, ht], Or.inr ⟨?_, hcond.2⟩⟩
        exact (Option.some_injective _ h).symm
      · simp only [alookup, if_neg ht] at h
        obtain ⟨w, hw, hl⟩ := ih h
        exact ⟨w, by simpa [alookup, ht] using hw, hl⟩
    · rw [if_neg hcond] at h
      by_cases ht : k0 = t
      · simp only [alookup, if_pos ht] at h
        exact ⟨w0, by simp [alookup, ht], Or.inl (Option.some_injective _ h).symm⟩
      · simp only [alookup, if_neg ht] at h
        obtain ⟨w, hw, hl⟩ := ih h
        exact ⟨w, by simpa [alookup, ht] using hw, hl⟩

theorem alookup_ensureKey (m : List (String × List String)) (k t : String) (l : List String)
    (h : alookup (ensureKey m k) t = some l) : alookup m t = some l ∨ l = [] := by
  unfold ensureKey at h
  by_cases hk : hasKey m k = true
  · rw [if_pos hk] at h; exact Or.inl h
  · rw [if_neg hk] at h
    cases halt : alookup m t with
    | some w =>
      rw [alookup_append_of_some _ halt] at h
      exact Or.inl h
    | none =>
      rw [alookup_append_of_none _ halt] at h
      by_cases hkt : k = t
      · simp only [alookup, if_pos hkt] at h
        exact Or.inr (Option.some_injective _ h).symm
      · simp [alookup, hkt] at h

theorem keysOf_map_value {α : Type} (m : List (String × α)) (g : String × α → String × α)
    (hg : ∀ p, (g p).1 = p.1) : keysOf (m.map g) = keysOf m := by
  unfold keysOf
  rw [List.map_map]
  exact List.map_congr_left fun p _ => hg p

theorem keysOf_dappend_nodup {α : Type} (m : List (String × List α)) (k : String) (v : α)
    (h : (keysOf m).Nodup) : (keysOf (dappend m k v)).Nodup := by
  unfold dappend
  by_cases hk : hasKey m k = true
  · rw [if_pos hk, keysOf_map_value]
    · exact h
    · intro p; by_cases hp : p.1 = k <;> simp [hp]
  · have h' : hasKey m k = false := by simpa using hk
    rw [if_neg hk]
    have hkm : k ∉ keysOf m := by
      intro hmem
      rw [← hasKey_iff] at hmem
      rw [hmem] at h'
      simp at h'
    unfold keysOf at *
    rw [List.map_append]
    simp [List.nodup_append, h, hkm]

theorem metaOldTarget_spec (ens aos : List String) (er : Option String) (idx : Option Int)
    (ta : Option String) (mk : Bool) (hr : er ≠ some "") (ht : ta ≠ some "") :
    metaOldTarget
      { entity_name := some (.list ens), entity_name_index := idx, entity_relation := er,
        attribute_of := some (.list aos), target_attribute := ta,
        multiactive_key := some mk } =
      canonicalConnsSpec ⟨ens, er, idx, aos, ta, mk⟩ := by
  simp only [metaOldTarget, canonicalConnsSpec, StrOrList.toList]
  congr 1
  · apply List.map_congr_left
    intro e _
    cases er with
    | none => simp [truthyStr]
    | some r =>
      have hr' : r ≠ "" := fun hh => hr (by rw [hh])
      simp [truthyStr, hr']
  · apply List.map_congr_left
    intro x _
    cases ta with
    | none => cases mk <;> simp [truthyStr]
    | some t =>
      have ht' : t ≠ "" := fun hh => ht (by rw [hh])
      cases mk <;> simp [truthyStr, ht']

theorem mem_runValidations {Ctx : Type} (ctx : Ctx) (r : Ctx → List ValidationMessage)
    (m : ValidationMessage) (hm : m ∈ r ctx) :
    ∀ rules : List (Ctx → List ValidationMessage), r ∈ rules → m ∈ runValidations rules ctx := by
  intro rules
  induction rules with
  | nil => intro hr; cases hr
  | cons r0 rest ih =>
    intro hr
    unfold runValidations
    rw [List.foldl_cons, foldl_append_acc]
    rcases List.mem_cons.mp hr with hr0 | hrest
    · subst hr0
      exact List.mem_append_left _ (by simpa using hm)
    · exact List.mem_append_right _ (ih hrest)

/-- C3 counterexample: a column connected twice to the same entity target
appears twice in that target's hash-key group, so the entity groups are not
deduplicated. -/
theorem C3_counterexample :
    alookup (stageHashedColumns c3Targets c3Columns) "t_hk" = some ["c", "c"] ∧
    ¬ (["c", "c"] : List String).Nodup := by
  decide

/-- C9 counterexample: in a source whose only key column `k` carries an
EntityKey connection to the relation target `r` (with role `e`), the emitted
attribute artifact for `r` resolves no driving key, although the first
EntityKey-connected column for `r` is `k`. -/
theorem C9_counterexample :
    (satArtifacts "s" c9Columns).map (fun a => (a.target, a.drivingKey)) = [("r", none)] ∧
    firstEntityKeyColumnClaim c9Columns "r" = some "k" := by
  decide

/-- C4: the same semantic connections expressed in any of the three accepted
annotation generations normalize to the identical canonical connection list
in declared order (unified list, meta-wrapped list, oldest separate fields in
both scalar and list form), and a column carrying none of the three sources
yields the empty list rather than an error (the normalizer is total). -/
theorem C4_normalizer_equivalence (n s a : String) (L : List RawConn) (i : OldIntent)
    (hr : i.entityRelation ≠ some "") (ht : i.targetAttribute ≠ some "") :
    normalizeColumn ⟨n, some L, {}⟩ = L ∧
    normalizeColumn ⟨n, none, { target := some L }⟩ = L ∧
    normalizeColumn (encodeOldest n i) = canonicalConnsSpec i ∧
    normalizeColumn (encodeOldestScalar n s a i) =
      canonicalConnsSpec { i with entityNames := [s], attributeOf := [a] } ∧
    normalizeColumn ⟨n, none, {}⟩ = [] := by
  obtain ⟨ens, er, idx, aos, ta, mk⟩ := i
  refine ⟨rfl, rfl, ?_, ?_, rfl⟩
  · exact metaOldTarget_spec ens aos er idx ta mk hr ht
  · exact metaOldTarget_spec [s] [a] er idx ta mk hr ht

theorem C4_witness :
    normalizeColumn (encodeOldest "c" ⟨["e"], some "r", some 0, ["t"], some "x", true⟩) =
      canonicalConnsSpec ⟨["e"], some "r", some 0, ["t"], some "x", true⟩ :=
  (C4_normalizer_equivalence "c" "s" "a" []
    ⟨["e"], some "r", some 0, ["t"], some "x", true⟩ (by decide) (by decide)).2.2.1

/-- C7: the validator engine aggregates every registered rule's messages
without short-circuiting; generation is blocked exactly when an
error-severity message exists; the surfaced error text joins all error
messages together; warning-severity messages never block. -/
theorem C7_validator_engine {Ctx : Type} (rules : List (Ctx → List ValidationMessage))
    (ctx : Ctx) :
    (∀ r ∈ rules, ∀ m ∈ r ctx, m ∈ runValidations rules ctx) ∧
    ((∃ s, generateOutcome (runValidations rules ctx) = .error s) ↔
      ∃ m ∈ runValidations rules ctx, m.type = "error") ∧
    (∀ s, generateOutcome (runValidations rules ctx) = .error s →
      s = "Validation errors: " ++
        String.intercalate "; " (surfacedErrorMessages (runValidations rules ctx))) ∧
    ((∀ m ∈ runValidations rules ctx, m.type ≠ "error") →
      generateOutcome (runValidations rules ctx) = .ok ()) := by
  refine ⟨fun r hr m hm => mem_runValidations ctx r m hm rules hr, ?_, ?_, ?_⟩
  · unfold generateOutcome
    by_cases hve : validationErrors (runValidations rules ctx) = []
    · rw [if_pos hve]
      constructor
      · rintro ⟨s, hs⟩; cases hs
      · rintro ⟨m, hm, hty⟩
        have : m ∈ validationErrors (runValidations rules ctx) := by
          simp [validationErrors, List.mem_filter, hm, hty]
        rw [hve] at this
        cases this
    · rw [if_neg hve]
      constructor
      · intro _
        obtain ⟨m, hm⟩ := List.exists_mem_of_ne_nil _ hve
        have hm' := hm
        simp only [validationErrors, List.mem_filter, decide_eq_true_eq] at hm'
        exact ⟨m, hm'.1, hm'.2⟩
      · intro _
        exact ⟨_, rfl⟩
  · intro s hs
    unfold generateOutcome at hs
    by_cases hve : validationErrors (runValidations rules ctx) = []
    · rw [if_pos hve] at hs; cases hs
    · rw [if_neg hve] at hs
      injection hs with h
      exact h.symm
  · intro hall
    unfold generateOutcome
    rw [if_pos]
    apply List.filter_eq_nil_iff.mpr
    intro m hm
    simpa using hall m hm

theorem satConnEntity_keys_nodup (n : String) (st : SatState) (conn : RawConn)
    (h1 : (keysOf st.targetColumns).Nodup) (h2 : (keysOf st.entityColumns).Nodup) :
    (keysOf (satConnEntity n st conn).targetColumns).Nodup ∧
      (keysOf (satConnEntity n st conn).entityColumns).Nodup := by
  simp only [satConnEntity]
  cases roleKey conn with
  | none => exact ⟨h1, h2⟩
  | some e => exact ⟨h1, keysOf_dappend_nodup _ _ _ h2⟩

theorem satConn_keys_nodup (n : String) (st : SatState) (conn : RawConn)
    (h1 : (keysOf st.targetColumns).Nodup) (h2 : (keysOf st.entityColumns).Nodup) :
    (keysOf (satConn n st conn).targetColumns).Nodup ∧
      (keysOf (satConn n st conn).entityColumns).Nodup := by
  simp only [satConn]
  cases conn.attribute_of with
  | none => exact satConnEntity_keys_nodup n st conn h1 h2
  | some a =>
    dsimp only
    by_cases ha : a = ""
    · rw [if_pos ha]; exact satConnEntity_keys_nodup n st conn h1 h2
    · rw [if_neg ha]
      exact ⟨keysOf_dappend_nodup _ _ _ h1, h2⟩

theorem satStateFor_keys_nodup (cols : List Column) :
    (keysOf (satStateFor cols).targetColumns).Nodup ∧
      (keysOf (satStateFor cols).entityColumns).Nodup := by
  unfold satStateFor
  apply foldl_invariant_mem
    (fun st : SatState => (keysOf st.targetColumns).Nodup ∧ (keysOf st.entityColumns).Nodup)
  · intro st c _ hst
    apply foldl_invariant_mem
      (fun st : SatState => (keysOf st.targetColumns).Nodup ∧ (keysOf st.entityColumns).Nodup)
    · intro st conn _ h
      exact satConn_keys_nodup c.name st conn h.1 h.2
    · exact hst
  · exact ⟨List.nodup_nil, List.nodup_nil⟩

/-- C8: whenever the multiactive-key-flagged subset of a (source, target)
pair's attribute columns is non-empty, the emitted artifact is the
multiactive one, its payload excludes every flagged column, and it is the
only artifact for that pair (so the ordinary artifact is not emitted). -/
theorem C8_multiactive_exclusion (src : String) (cols : List Column) (a : SatArtifact)
    (ha : a ∈ satArtifacts src cols) (hma : a.maKeys ≠ []) :
    a.isMultiactive = true ∧ (∀ c ∈ a.maKeys, c ∉ a.payload) ∧
    (∀ b ∈ satArtifacts src cols, b.target = a.target → b = a) := by
  obtain ⟨p, hp, rfl⟩ := List.mem_map.mp ha
  simp only [mkSatArtifact] at hma
  refine ⟨?_, ?_, ?_⟩
  · simp only [mkSatArtifact, decide_eq_true_eq]
    exact List.length_pos.mpr hma
  · intro c hc hcp
    simp only [mkSatArtifact] at hc hcp
    rw [if_pos (List.length_pos.mpr hma)] at hcp
    obtain ⟨x, hx, hxc⟩ := List.mem_map.mp hcp
    have hdec := (List.mem_filter.mp hx).2
    rw [decide_eq_true_eq] at hdec
    exact hdec (hxc ▸ hc)
  · intro b hb htgt
    obtain ⟨q, hq, rfl⟩ := List.mem_map.mp hb
    have hnod : ((satStateFor cols).targetColumns.map Prod.fst).Nodup :=
      (satStateFor_keys_nodup cols).1
    have hqp : q = p := by
      apply List.inj_on_of_nodup_map hnod hq hp
      simpa [mkSatArtifact] using htgt
    rw [hqp]

theorem C8_witness :
    (mkSatArtifact "s" (satStateFor c8Cols)
      ("t", [⟨"k", none, some true⟩, ⟨"v", none, none⟩])).isMultiactive = true ∧
    "k" ∉ (mkSatArtifact "s" (satStateFor c8Cols)
      ("t", [⟨"k", none, some true⟩, ⟨"v", none, none⟩])).payload :=
  have h := C8_multiactive_exclusion "s" c8Cols
    (mkSatArtifact "s" (satStateFor c8Cols)
      ("t", [⟨"k", none, some true⟩, ⟨"v", none, none⟩])) (by decide) (by decide)
  ⟨h.1, h.2.1 "k" (by decide)⟩

theorem mergeOpt_nil (o : Option (List String)) : mergeOpt o [] = o := by
  cases o <;> simp [mergeOpt]

theorem mergeOpt_some (x : List String) (L : List String) :
    mergeOpt (some x) L = some (x ++ L) := by
  cases L <;> simp [mergeOpt]

theorem mergeOpt_cons_eq (o : Option (List String)) (x : String) (L : List String) :
    mergeOpt o (x :: L) = some (o.getD [] ++ x :: L) := by
  cases o <;> simp [mergeOpt]

theorem mergeOpt_assoc (o : Option (List String)) (L1 L2 : List String) :
    mergeOpt (mergeOpt o L1) L2 = mergeOpt o (L1 ++ L2) := by
  cases o <;> cases L1 <;> cases L2 <;> simp [mergeOpt]

theorem satConn_entityColumns (n : String) (st : SatState) (conn : RawConn) :
    (satConn n st conn).entityColumns =
      match entityContribution conn with
      | some t => dappend st.entityColumns t n
      | none => st.entityColumns := by
  simp only [satConn, entityContribution]
  cases hao : conn.attribute_of with
  | none =>
    have ht : truthyStr (none : Option String) = false := rfl
    rw [ht]
    simp only [satConnEntity]
    cases roleKey conn <;> simp
  | some a =>
    by_cases ha : a = ""
    · subst ha
      have ht : truthyStr (some "") = false := rfl
      rw [ht]
      dsimp only
      rw [if_pos rfl]
      simp only [satConnEntity]
      cases roleKey conn <;> simp
    · have ht : truthyStr (some a) = true := by simp [truthyStr, ha]
      rw [ht]
      dsimp only
      rw [if_neg ha]
      simp

theorem satConns_entityColumns_alookup (t : String) :
    ∀ (conns : List RawConn) (n : String) (st : SatState),
      alookup ((conns.foldl (satConn n) st).entityColumns) t =
        mergeOpt (alookup st.entityColumns t)
          (conns.filterMap fun conn =>
            if entityContribution conn = some t then some n else none) := by
  intro conns
  induction conns with
  | nil => intro n st; simp [mergeOpt_nil]
  | cons conn rest ih =>
    intro n st
    rw [List.foldl_cons, ih n (satConn n st conn), satConn_entityColumns]
    cases hc : entityContribution conn with
    | none => simp [List.filterMap_cons, hc]
    | some e =>
      by_cases het : e = t
      · subst het
        rw [alookup_dappend, if_pos rfl, mergeOpt_some]
        simp [List.filterMap_cons, hc, mergeOpt_cons_eq, List.append_assoc]
      · have hte : ¬ t = e := fun hh => het hh.symm
        simp only [List.filterMap_cons, hc]
        rw [alookup_dappend, if_neg hte]
        simp [het]

theorem collectEntity_cons (c : Column) (rest : List Column) (t : String) :
    collectEntity (c :: rest) t =
      (c.conns.filterMap fun conn =>
        if entityContribution conn = some t then some c.name else none) ++
      collectEntity rest t := by
  unfold collectEntity
  rw [List.foldl_cons, foldl_append_acc]
  simp

theorem satFold_entityColumns_alookup (t : String) :
    ∀ (cols : List Column) (st : SatState),
      alookup
        ((cols.foldl (fun st c => c.conns.foldl (satConn c.name) st) st).entityColumns) t =
        mergeOpt (alookup st.entityColumns t) (collectEntity cols t) := by
  intro cols
  induction cols with
  | nil => intro st; simp [collectEntity, mergeOpt_nil]
  | cons c rest ih =>
    intro st
    rw [List.foldl_cons, ih, satConns_entityColumns_alookup t c.conns c.name st,
      mergeOpt_assoc, collectEntity_cons]

/-- C9 (amended): for every emitted attribute artifact, the resolved driving
key is the head of the columns whose non-attribute connections file under the
artifact's target by role name (`entity_name` when truthy, else
`target_name`), in first-encounter order, and it is none exactly when no such
column exists. -/
theorem C9_amended_driving_key (src : String) (cols : List Column) (a : SatArtifact)
    (ha : a ∈ satArtifacts src cols) :
    a.drivingKey = drivingKeySpec cols a.target ∧
    (a.drivingKey = none ↔ collectEntity cols a.target = []) := by
  obtain ⟨p, hp, rfl⟩ := List.mem_map.mp ha
  have hchar := satFold_entityColumns_alookup p.1 cols {}
  have h0 : alookup (({} : SatState)).entityColumns p.1 = none := rfl
  rw [h0] at hchar
  have hdk : (mkSatArtifact src (satStateFor cols) p).drivingKey =
      (collectEntity cols p.1).head? := by
    simp only [mkSatArtifact, satStateFor]
    rw [hchar]
    cases hcol : collectEntity cols p.1 with
    | nil => simp [mergeOpt]
    | cons x xs => simp [mergeOpt]
  have htar : (mkSatArtifact src (satStateFor cols) p).target = p.1 := rfl
  constructor
  · rw [hdk, htar]
    rfl
  · rw [hdk, htar]
    cases collectEntity cols p.1 <;> simp

theorem C9_witness :
    (mkSatArtifact "s" (satStateFor
        [⟨"id", [{ target_name := some "u" }]⟩, ⟨"v", [{ attribute_of := some "u" }]⟩])
      ("u", [⟨"v", none, none⟩])).drivingKey = some "id" :=
  have h := C9_amended_driving_key "s"
    [⟨"id", [{ target_name := some "u" }]⟩, ⟨"v", [{ attribute_of := some "u" }]⟩]
    (mkSatArtifact "s" (satStateFor
        [⟨"id", [{ target_name := some "u" }]⟩, ⟨"v", [{ attribute_of := some "u" }]⟩])
      ("u", [⟨"v", none, none⟩])) (by decide)
  h.1.trans (by decide)

theorem C7_witness :
    (⟨"error", "e", "boom"⟩ : ValidationMessage) ∈
      runValidations [fun _ : Unit => [⟨"error", "e", "boom"⟩]] () :=
  (C7_validator_engine [fun _ : Unit => [⟨"error", "e", "boom"⟩]] ()).1
    (fun _ : Unit => [⟨"error", "e", "boom"⟩]) (List.mem_singleton.mpr rfl)
    ⟨"error", "e", "boom"⟩ (List.mem_singleton.mpr rfl)

/-- C3 (amended): deduplication of hash-key groups holds for the relation
combined groups built by the second pass whenever their key was not already
produced by the first pass; entity and role-slot groups are appended to
unconditionally (see the counterexample), so the claim's blanket dedup
guarantee holds only in this restricted form. -/
theorem C3_amended_dedup (ts : List Target) (cols : List Column) (k : String)
    (h : alookup (stagePass1 ts cols).hashed k = none) :
    ∀ l, alookup (stageHashedColumns ts cols) k = some l → l.Nodup := by
  unfold stageHashedColumns relationPass
  apply foldl_invariant_mem
    (fun m : List (String × List String) => ∀ l, alookup m k = some l → l.Nodup)
  · intro m p _ hm
    apply foldl_invariant_mem
      (fun m : List (String × List String) => ∀ l, alookup m k = some l → l.Nodup)
    · intro m' c _ hm' l hl
      obtain ⟨w, hw, hcase⟩ := alookup_dappendNew m' (p.1 ++ "_hk") c k l hl
      have hwn := hm' w hw
      rcases hcase with rfl | ⟨rfl, hv⟩
      · exact hwn
      · simp [List.nodup_append, hwn, hv]
    · intro l hl
      rcases alookup_ensureKey m (p.1 ++ "_hk") k l hl with h1 | rfl
      · exact hm l h1
      · exact List.nodup_nil
  · intro l hl
    rw [h] at hl
    cases hl

theorem C3_witness :
    alookup
      (stageHashedColumns [⟨"r", "relation", ["x", "y"]⟩]
        [⟨"cx", [{ target_name := some "r", entity_name := some "x" }]⟩,
         ⟨"cy", [{ target_name := some "r", entity_name := some "y" }]⟩]) "r_hk" =
      some ["cx", "cy"] ∧ (["cx", "cy"] : List String).Nodup :=
  ⟨by decide,
    C3_amended_dedup [⟨"r", "relation", ["x", "y"]⟩]
      [⟨"cx", [{ target_name := some "r", entity_name := some "x" }]⟩,
       ⟨"cy", [{ target_name := some "r", entity_name := some "y" }]⟩]
      "r_hk" (by decide) ["cx", "cy"] (by decide)⟩

theorem alookup_dappendNew_eq (m : List (String × List String)) (k v t : String) :
    alookup (dappendNew m k v) t =
      match alookup m t with
      | none => none
      | some w => if t = k ∧ v ∉ w then some (w ++ [v]) else some w := by
  induction m with
  | nil => simp [dappendNew, alookup]
  | cons p rest ih =>
    obtain ⟨k0, w0⟩ := p
    simp only [dappendNew, List.map_cons]
    by_cases ht : k0 = t
    · subst ht
      by_cases hcond : k0 = k ∧ v ∉ w0
      · rw [if_pos hcond]
        simp only [alookup, eq_self_iff_true, if_true]
        rw [if_pos hcond]
      · rw [if_neg hcond]
        simp only [alookup, eq_self_iff_true, if_true]
        rw [if_neg hcond]
    · by_cases hcond : k0 = k ∧ v ∉ w0
      · rw [if_pos hcond]
        simp only [alookup, if_neg ht]
        exact ih
      · rw [if_neg hcond]
        simp only [alookup, if_neg ht]
        exact ih

theorem alookup_ensureKey_eq (m : List (String × List String)) (k t : String) :
    alookup (ensureKey m k) t =
      match alookup m t with
      | some w => some w
      | none => if k = t then some [] else none := by
  unfold ensureKey
  by_cases hk : hasKey m k = true
  · rw [if_pos hk]
    cases halt : alookup m t with
    | some w => rfl
    | none =>
      by_cases hkt : k = t
      · subst hkt
        obtain ⟨w, hw⟩ := alookup_isSome_of_hasKey m k hk
        rw [hw] at halt
        cases halt
      · simp [hkt]
  · rw [if_neg hk]
    have h' : hasKey m k = false := by simpa using hk
    cases halt : alookup m t with
    | some w => rw [alookup_append_of_some _ halt]
    | none =>
      rw [alookup_append_of_none _ halt]
      simp [alookup]

/-- C2: for the relation `rel` with entities `[A, A, B]` and a source whose
columns fill role `A` at index 0, role `A` at index 1 and role `B`, the
deriver resolves the two `A` columns to the distinct keys `rel_A_1` and
`rel_A_2`, and the combined group `rel_hk` holds all three columns, each
exactly once, in first-encounter order. -/
theorem C2_selflink_property (n1 n2 n3 : String)
    (h12 : n1 ≠ n2) (h13 : n1 ≠ n3) (h23 : n2 ≠ n3) :
    alookup (stageHashedColumns c2Targets (c2Columns n1 n2 n3)) "rel_A_1_hk" = some [n1] ∧
    alookup (stageHashedColumns c2Targets (c2Columns n1 n2 n3)) "rel_A_2_hk" = some [n2] ∧
    alookup (stageHashedColumns c2Targets (c2Columns n1 n2 n3)) "rel_hk" =
      some [n1, n2, n3] := by
  have hpass : stagePass1 c2Targets (c2Columns n1 n2 n3) =
      { derived := [("rel_A_1_id", n1), ("rel_A_2_id", n2), ("rel_B_id", n3)],
        hashed := [("rel_A_1_hk", [n1]), ("rel_A_2_hk", [n2]), ("rel_B_hk", [n3])],
        relCols := [("rel", [n1, n2, n3])] } := by
    simp +decide [stagePass1, stageConn, c2Targets, c2Columns, targetType, targetEntities,
      lookupTarget, dictByName, dappend, dinsert, hasKey, alookup]
  have hsh : stageHashedColumns c2Targets (c2Columns n1 n2 n3) =
      dappendNew (dappendNew (dappendNew
        (ensureKey [("rel_A_1_hk", [n1]), ("rel_A_2_hk", [n2]), ("rel_B_hk", [n3])] "rel_hk")
        "rel_hk" n1) "rel_hk" n2) "rel_hk" n3 := by
    rw [stageHashedColumns, hpass]
    rfl
  have hb1 : alookup [("rel_A_1_hk", [n1]), ("rel_A_2_hk", [n2]), ("rel_B_hk", [n3])]
      "rel_A_1_hk" = some [n1] := rfl
  have hb2 : alookup [("rel_A_1_hk", [n1]), ("rel_A_2_hk", [n2]), ("rel_B_hk", [n3])]
      "rel_A_2_hk" = some [n2] := rfl
  have hb3 : alookup [("rel_A_1_hk", [n1]), ("rel_A_2_hk", [n2]), ("rel_B_hk", [n3])]
      "rel_hk" = none := rfl
  rw [hsh]
  simp [alookup_dappendNew_eq, alookup_ensureKey_eq, hb1, hb2, hb3,
    Ne.symm h12, Ne.symm h13, Ne.symm h23]

theorem C2_witness :
    alookup (stageHashedColumns c2Targets (c2Columns "ca1" "ca2" "cb")) "rel_hk" =
      some ["ca1", "ca2", "cb"] :=
  (C2_selflink_property "ca1" "ca2" "cb" (by decide) (by decide) (by decide)).2.2

/-- C10: in the key/hash deriver, an EntityKey connection to a self-link
relation whose `entity_index` is absent is not skipped: it resolves to the
unsequenced key `R_E` (no sequence suffix), emits the alias `R_E_id`, and
every index-less column for the same role accumulates under the single
shared group `R_E_hk`. -/
theorem C10_indexless_selflink (R E n1 n2 : String) (es : List String)
    (hR : R ≠ "") (hE : E ≠ "") (hcount : 1 < es.count E) :
    alookup (stageDerivedColumns [⟨R, "relation", es⟩]
        [⟨n1, [{ target_name := some R, entity_name := some E }]⟩,
         ⟨n2, [{ target_name := some R, entity_name := some E }]⟩])
      ((R ++ "_" ++ E) ++ "_id") = some n2 ∧
    alookup (stageHashedColumns [⟨R, "relation", es⟩]
        [⟨n1, [{ target_name := some R, entity_name := some E }]⟩,
         ⟨n2, [{ target_name := some R, entity_name := some E }]⟩])
      ((R ++ "_" ++ E) ++ "_hk") = some [n1, n2] := by
  have hmem : E ∈ es := List.count_pos_iff.mp (by omega)
  have htt : targetType [⟨R, "relation", es⟩] R = "relation" := by
    simp [targetType, lookupTarget, dictByName, List.find?]
  have hte : targetEntities [⟨R, "relation", es⟩] R = es := by
    simp [targetEntities, lookupTarget, dictByName, List.find?]
  have hpass : stagePass1 [⟨R, "relation", es⟩]
      [⟨n1, [{ target_name := some R, entity_name := some E }]⟩,
       ⟨n2, [{ target_name := some R, entity_name := some E }]⟩] =
      { derived := [((R ++ "_" ++ E) ++ "_id", n2)],
        hashed := [((R ++ "_" ++ E) ++ "_hk", [n1, n2])],
        relCols := [(R, [n1, n2])] } := by
    simp [stagePass1, stageConn, htt, hte, hR, hE, hmem, dappend, dinsert, hasKey, alookup]
  have hkey : ((R ++ "_" ++ E) ++ "_hk" : String) ≠ R ++ "_hk" := by
    intro hh
    have hlen := congrArg String.length hh
    have hu : ("_" : String).length = 1 := rfl
    have hhk : ("_hk" : String).length = 3 := rfl
    simp [String.length_append, hu, hhk] at hlen
    omega
  constructor
  · rw [stageDerivedColumns, hpass]
    simp [alookup]
  · have hsh : stageHashedColumns [⟨R, "relation", es⟩]
        [⟨n1, [{ target_name := some R, entity_name := some E }]⟩,
         ⟨n2, [{ target_name := some R, entity_name := some E }]⟩] =
        dappendNew (dappendNew
          (ensureKey [((R ++ "_" ++ E) ++ "_hk", [n1, n2])] (R ++ "_hk"))
          (R ++ "_hk") n1) (R ++ "_hk") n2 := by
      rw [stageHashedColumns, hpass]
      rfl
    have hbase : alookup [((R ++ "_" ++ E) ++ "_hk", [n1, n2])]
        ((R ++ "_" ++ E) ++ "_hk") = some [n1, n2] := by simp [alookup]
    rw [hsh]
    simp [alookup_dappendNew_eq, alookup_ensureKey_eq, hbase, hkey]

theorem C10_witness :
    alookup (stageHashedColumns [⟨"r", "relation", ["e", "e"]⟩]
        [⟨"c1", [{ target_name := some "r", entity_name := some "e" }]⟩,
         ⟨"c2", [{ target_name := some "r", entity_name := some "e" }]⟩])
      (("r" ++ "_" ++ "e") ++ "_hk") = some ["c1", "c2"] :=
  (C10_indexless_selflink "r" "e" "c1" "c2" ["e", "e"]
    (by decide) (by decide) (by decide)).2

theorem dictByName_eq_of_nodup :
    ∀ (ts acc : List Target), (((acc ++ ts).map Target.name).Nodup) →
      ts.foldl (fun acc t =>
        if acc.any fun u => decide (u.name = t.name) then
          acc.map fun u => if u.name = t.name then t else u
        else acc ++ [t]) acc = acc ++ ts := by
  intro ts
  induction ts with
  | nil => intro acc _; simp
  | cons t rest ih =>
    intro acc hnd
    rw [List.foldl_cons]
    have hnot : t.name ∉ acc.map Target.name := by
      intro hmem
      rw [List.map_append] at hnd
      have := (List.nodup_append.mp hnd).2.2
      exact this hmem (by simp)
    have hany : (acc.any fun u => decide (u.name = t.name)) = false := by
      rw [Bool.eq_false_iff]
      intro hh
      simp only [List.any_eq_true, decide_eq_true_eq] at hh
      obtain ⟨u, hu, hun⟩ := hh
      exact hnot (hun ▸ List.mem_map_of_mem Target.name hu)
    rw [if_neg (by simp [hany])]
    rw [ih (acc ++ [t]) (by simpa using hnd)]
    simp

theorem dictByName_id (ts : List Target) (hnodup : (ts.map Target.name).Nodup) :
    dictByName ts = ts := by
  unfold dictByName
  simpa using dictByName_eq_of_nodup ts [] (by simpa using hnodup)

theorem hubSourceRefs_eq_nil (sources : List Source) (tname : String)
    (h : ∀ s ∈ sources, ∀ c ∈ s.columns, ∀ conn ∈ c.conns,
      conn.target_name ≠ some tname) :
    hubSourceRefs sources tname = [] := by
  unfold hubSourceRefs
  apply foldl_invariant_mem (fun acc : List (String × String) => acc = [])
  · intro acc s hs hacc
    apply foldl_invariant_mem (fun acc : List (String × String) => acc = [])
    · intro acc c hc hacc2
      rw [if_neg]
      · exact hacc2
      · intro hh
        simp only [List.any_eq_true, decide_eq_true_eq] at hh
        obtain ⟨conn, hconn, heq⟩ := hh
        exact h s hs c hc conn hconn heq
    · exact hacc
  · rfl

/-- C5: an entity-type target to which no column in any source resolves an
EntityKey connection receives an EntityNoSource warning (validator modelled
from the spec) and is excluded from hub-artifact generation. -/
theorem C5_entity_no_source (ts : List Target) (sources : List Source) (t : Target)
    (hnodup : (ts.map Target.name).Nodup) (hmem : t ∈ ts) (htype : t.type = "entity")
    (hnone : ∀ s ∈ sources, ∀ c ∈ s.columns, ∀ conn ∈ c.conns,
      conn.target_name ≠ some t.name) :
    entityNoSourceMessage t.name ∈ entityNoSourceWarnings ts sources ∧
    t.name ∉ generatedHubs ts sources := by
  have hdict : dictByName ts = ts := dictByName_id ts hnodup
  have hrefs : hubSourceRefs sources t.name = [] := hubSourceRefs_eq_nil sources t.name hnone
  constructor
  · unfold entityNoSourceWarnings
    rw [hdict]
    obtain ⟨l1, l2, rfl⟩ := List.append_of_mem hmem
    rw [List.foldl_append, List.foldl_cons]
    have hcond : t.type = "entity" ∧
        ¬ (sources.any fun s => s.columns.any fun c =>
            c.conns.any fun conn => decide (conn.target_name = some t.name)) = true := by
      refine ⟨htype, fun hany => ?_⟩
      simp only [List.any_eq_true, decide_eq_true_eq] at hany
      obtain ⟨s, hs, c, hc, conn, hconn, heq⟩ := hany
      exact hnone s hs c hc conn hconn heq
    rw [if_pos hcond]
    apply foldl_invariant_mem
      (fun msgs : List ValidationMessage => entityNoSourceMessage t.name ∈ msgs)
    · intro msgs u _ hmsg
      dsimp only
      split
      · exact List.mem_append_left _ hmsg
      · exact hmsg
    · exact List.mem_append_right _ (List.mem_singleton.mpr rfl)
  · unfold generatedHubs
    rw [hdict]
    apply foldl_invariant_mem (fun acc : List String => t.name ∉ acc)
    · intro acc u hu hacc
      dsimp only
      split
      · rename_i hcondu
        intro hmem2
        rcases List.mem_append.mp hmem2 with h1 | h1
        · exact hacc h1
        · have huname : u.name = t.name := by simpa [eq_comm] using h1
          exact (huname ▸ hcondu.2) hrefs
      · exact hacc
    · exact List.not_mem_nil _

theorem C5_witness :
    entityNoSourceMessage "ghost" ∈
      entityNoSourceWarnings [⟨"ghost", "entity", []⟩] [⟨"src", []⟩] ∧
    "ghost" ∉ generatedHubs [⟨"ghost", "entity", []⟩] [⟨"src", []⟩] :=
  C5_entity_no_source [⟨"ghost", "entity", []⟩] [⟨"src", []⟩] ⟨"ghost", "entity", []⟩
    (by decide) (by decide) rfl
    (by intro s hs c hc conn hconn; simp at hs; subst hs; simp at hc)

theorem colHasConnection_eq_false (c : RawColumn) (h : normalizeColumn c = []) :
    colHasConnection c = false := by
  unfold normalizeColumn at h
  unfold colHasConnection
  cases hct : c.target with
  | some t =>
    rw [hct] at h
    simp only at h
    simp [h]
  | none =>
    rw [hct] at h
    cases hmt : c.meta.target with
    | some t =>
      rw [hmt] at h
      simp only at h
      simp [h]
    | none =>
      rw [hmt] at h
      simp only at h
      unfold metaOldTarget at h
      simp only [List.append_eq_nil] at h
      obtain ⟨h1, h2⟩ := h
      rw [Bool.or_eq_false_iff]
      constructor
      · cases hen : c.meta.entity_name with
        | none => rfl
        | some en =>
          rw [hen] at h1
          simp only [List.map_eq_nil_iff] at h1
          cases en with
          | str s => simp [StrOrList.toList] at h1
          | list l =>
            simp only [StrOrList.toList] at h1
            simp [truthySOL, h1]
      · cases hao : c.meta.attribute_of with
        | none => rfl
        | some ao =>
          rw [hao] at h2
          simp only [List.map_eq_nil_iff] at h2
          cases ao with
          | str s => simp [StrOrList.toList] at h2
          | list l =>
            simp only [StrOrList.toList] at h2
            simp [truthySOL, h2]

theorem stagePass1_skip_empty (ts : List Target) (A B : List Column) (n : String) :
    stagePass1 ts (A ++ ⟨n, []⟩ :: B) = stagePass1 ts (A ++ B) := by
  unfold stagePass1
  rw [List.foldl_append, List.foldl_append, List.foldl_cons]
  rfl

theorem stageHashdiff_skip_empty (A B : List Column) (n : String) :
    stageHashdiffColumns (A ++ ⟨n, []⟩ :: B) = stageHashdiffColumns (A ++ B) := by
  unfold stageHashdiffColumns
  rw [List.foldl_append, List.foldl_append, List.foldl_cons]
  rfl

/-- C6: a source column whose canonical connection list is empty always
produces a ColumnNoConnection warning, and the column contributes nothing to
the derived mappings: the per-source stage outputs with and without it are
identical. -/
theorem C6_column_no_connection (rawSources : List RawSource) (s : RawSource)
    (c : RawColumn) (pre post : List RawColumn) (ts : List Target)
    (hs : s ∈ rawSources) (hcols : s.columns = pre ++ c :: post)
    (hempty : normalizeColumn c = []) :
    noConnectionMessage s.name c.name ∈ columnNoConnectionWarnings rawSources ∧
    stageDerivedColumns ts (canonColumns (pre ++ c :: post)) =
      stageDerivedColumns ts (canonColumns (pre ++ post)) ∧
    stageHashedColumns ts (canonColumns (pre ++ c :: post)) =
      stageHashedColumns ts (canonColumns (pre ++ post)) ∧
    stageHashdiffColumns (canonColumns (pre ++ c :: post)) =
      stageHashdiffColumns (canonColumns (pre ++ post)) := by
  have hfalse : colHasConnection c = false := colHasConnection_eq_false c hempty
  have hcanon1 : canonColumns (pre ++ c :: post) =
      canonColumns pre ++ (⟨c.name, []⟩ : Column) :: canonColumns post := by
    simp [canonColumns, hempty]
  have hcanon2 : canonColumns (pre ++ post) = canonColumns pre ++ canonColumns post := by
    simp [canonColumns]
  refine ⟨?_, ?_, ?_, ?_⟩
  · unfold columnNoConnectionWarnings
    obtain ⟨S1, S2, rfl⟩ := List.append_of_mem hs
    rw [List.foldl_append, List.foldl_cons]
    apply foldl_invariant_mem
      (fun msgs : List ValidationMessage => noConnectionMessage s.name c.name ∈ msgs)
    · intro msgs u _ hmsg
      dsimp only
      apply foldl_invariant_mem
        (fun msgs : List ValidationMessage => noConnectionMessage s.name c.name ∈ msgs)
      · intro msgs cc _ hmsg2
        dsimp only
        split
        · exact hmsg2
        · exact List.mem_append_left _ hmsg2
      · exact hmsg
    · rw [hcols, List.foldl_append, List.foldl_cons, if_neg (by simp [hfalse])]
      apply foldl_invariant_mem
        (fun msgs : List ValidationMessage => noConnectionMessage s.name c.name ∈ msgs)
      · intro msgs cc _ hmsg2
        dsimp only
        split
        · exact hmsg2
        · exact List.mem_append_left _ hmsg2
      · exact List.mem_append_right _ (List.mem_singleton.mpr rfl)
  · unfold stageDerivedColumns
    rw [hcanon1, hcanon2, stagePass1_skip_empty]
  · unfold stageHashedColumns
    rw [hcanon1, hcanon2, stagePass1_skip_empty]
  · rw [hcanon1, hcanon2, stageHashdiff_skip_empty]

theorem C6_witness :
    noConnectionMessage "src" "orphan" ∈
      columnNoConnectionWarnings [⟨"src", [⟨"orphan", none, {}⟩]⟩] ∧
    stageHashedColumns [] (canonColumns ([] ++ ⟨"orphan", none, {}⟩ :: [])) =
      stageHashedColumns [] (canonColumns ([] ++ [])) :=
  have h := C6_column_no_connection [⟨"src", [⟨"orphan", none, {}⟩]⟩]
    ⟨"src", [⟨"orphan", none, {}⟩]⟩ ⟨"orphan", none, {}⟩ [] [] []
    (by simp) rfl rfl
  ⟨h.1, h.2.2.1⟩

/-- C1: for the relation `rel` with entities `[a, a, b]` the link artifact
lists the foreign key `rel_b_1_hk` for the `b` slot, while the per-source
stage artifact emits the hash key `rel_b_hk` for the `b` column and no
`rel_b_1_hk` key at all: the two self-link naming schemes disagree on
relations mixing repeated and non-repeated entities. -/
theorem C1_selflink_naming_mismatch :
    linkFkColumns "rel" ["a", "a", "b"] = ["rel_a_1_hk", "rel_a_2_hk", "rel_b_1_hk"] ∧
    alookup (stageHashedColumns c1Targets c1Columns) "rel_b_hk" = some ["cb"] ∧
    (stageHashedColumns c1Targets c1Columns).map Prod.fst =
      ["rel_a_1_hk", "rel_a_2_hk", "rel_b_hk", "rel_hk"] := by
  decide

end Metadv
